import Mathlib

/-!
Verification of the virtual networking / HTTP / WebSocket bridge subsystem of
the bundleVFSModules repository (src/src/memfs-entry.js and src/src/net.js),
via a shallow embedding into Lean.

Byte sequences are modelled as `List Nat` whose elements are `< 256`
(the elements of a JS `Uint8Array`).  JS 32-bit signed arithmetic that can
actually go negative (the 64-bit length branch of `_parseWsFrame`) is modelled
through `Int` with an explicit `ToInt32` conversion; everywhere else the
involved quantities are provably non-negative and `Nat` is used.
-/

namespace VFS

abbrev Bytes := List Nat

/-- All elements of a byte list fit in one byte, as in a `Uint8Array`. -/
abbrev ByteVals (l : Bytes) : Prop := ∀ b ∈ l, b < 256

/-- JS `ToInt32`: interpret the low 32 bits of a natural number as a signed
32-bit value.  Models the result of JS bitwise operators such as
`(data[6] << 24) | ...`. -/
def toInt32 (n : Nat) : Int :=
  if n % 4294967296 < 2147483648 then ((n % 4294967296 : Nat) : Int)
  else ((n % 4294967296 : Nat) : Int) - 4294967296

/-- `Uint8Array.prototype.slice(s, e)` index resolution: negative indices count
from the end of the array, and indices are clamped to `[0, length]`. -/
def jsRelIndex (len : Nat) (t : Int) : Nat :=
  if t < 0 then (len + t).toNat else min t.toNat len

/-- `Uint8Array.prototype.slice(s, e)`: the elements with indices in
`[jsRelIndex len s, jsRelIndex len e)`. -/
def jsSliceU8 (l : Bytes) (s e : Int) : Bytes :=
  (l.take (jsRelIndex l.length e)).drop (jsRelIndex l.length s)

/-- Result of `_parseWsFrame`: `incomplete` is the JS `null` return,
`frame` is the `{opcode, payload, totalLength}` record, and `error` is the
`RangeError` thrown by `new Uint8Array(payloadLength)` when the JS 32-bit
value `payloadLength` is negative. -/
inductive ParseResult where
  | incomplete : ParseResult
  | frame (opcode : Nat) (payload : Bytes) (totalLength : Int) : ParseResult
  | error : ParseResult
  deriving DecidableEq, Repr

/-- Tail of `_parseWsFrame` (src/src/memfs-entry.js lines 1039-1054), after
`payloadLength` and `offset` have been computed: check that the buffer holds
the mask key (if any) and the payload, unmask, and return the frame record. -/
def wsFinish (data : Bytes) (opcode : Nat) (masked : Bool) (payloadLength : Int)
    (offset : Nat) : ParseResult :=
  if masked then
    if (data.length : Int) < (offset : Int) + 4 + payloadLength then .incomplete
    else if payloadLength < 0 then .error
    else
      .frame opcode
        ((List.range payloadLength.toNat).map
          (fun i => data.getD (offset + 4 + i) 0 ^^^
            (jsSliceU8 data (offset : Int) ((offset : Int) + 4)).getD (i % 4) 0))
        ((offset : Int) + 4 + payloadLength)
  else
    if (data.length : Int) < (offset : Int) + payloadLength then .incomplete
    else
      .frame opcode (jsSliceU8 data (offset : Int) ((offset : Int) + payloadLength))
        ((offset : Int) + payloadLength)

/-- `_parseWsFrame` (src/src/memfs-entry.js lines 1020-1055). -/
def _parseWsFrame (data : Bytes) : ParseResult :=
  if data.length < 2 then .incomplete
  else if data.getD 1 0 &&& 0x7f = 126 then
    if data.length < 4 then .incomplete
    else wsFinish data (data.getD 0 0 &&& 0x0f) (data.getD 1 0 &&& 0x80 != 0)
      ((((data.getD 2 0) <<< 8 ||| data.getD 3 0 : Nat) : Int)) 4
  else if data.getD 1 0 &&& 0x7f = 127 then
    if data.length < 10 then .incomplete
    else wsFinish data (data.getD 0 0 &&& 0x0f) (data.getD 1 0 &&& 0x80 != 0)
      (toInt32 ((data.getD 6 0) <<< 24 ||| (data.getD 7 0) <<< 16 |||
        (data.getD 8 0) <<< 8 ||| data.getD 9 0)) 10
  else wsFinish data (data.getD 0 0 &&& 0x0f) (data.getD 1 0 &&& 0x80 != 0)
    ((data.getD 1 0 &&& 0x7f : Nat) : Int) 2

/-- The mask bit of header byte 1: `masked ? 0x80 : 0`. -/
def maskBit (masked : Bool) : Nat := if masked then 0x80 else 0

/-- The header bytes written by `_createWsFrame` (the `% 256` on byte 0 models
the `Uint8Array` store). -/
def wsHeader (opcode : Nat) (masked : Bool) (length : Nat) : Bytes :=
  if length ≤ 125 then
    [(0x80 ||| opcode) % 256, maskBit masked ||| length]
  else if length ≤ 65535 then
    [(0x80 ||| opcode) % 256, maskBit masked ||| 126,
     (length >>> 8) &&& 0xff, length &&& 0xff]
  else
    [(0x80 ||| opcode) % 256, maskBit masked ||| 127, 0, 0, 0, 0,
     (length >>> 24) &&& 0xff, (length >>> 16) &&& 0xff,
     (length >>> 8) &&& 0xff, length &&& 0xff]

/-- The masking loop of `_createWsFrame`: `frame[offset+i] = payload[i] ^ maskKey[i % 4]`,
with the running index `i` made explicit. -/
def maskBytes (maskKey : Bytes) : Nat → Bytes → Bytes
  | _, [] => []
  | i, b :: rest => (b ^^^ maskKey.getD (i % 4) 0) :: maskBytes maskKey (i + 1) rest

/-- `_createWsFrame` (src/src/memfs-entry.js lines 1063-1118).  The source
draws a fresh random 4-byte mask key when `masked` is set; the key is taken
here as an explicit parameter `maskKey` (used only when `masked = true`). -/
def _createWsFrame (opcode : Nat) (payload : Bytes) (masked : Bool)
    (maskKey : Bytes) : Bytes :=
  wsHeader opcode masked payload.length ++
    (if masked then maskKey ++ maskBytes maskKey 0 payload else payload)

example : _createWsFrame 1 [65] false [] = [129, 1, 65] := by decide
example : _createWsFrame 8 [3, 232] false [] = [136, 2, 3, 232] := by decide
example : _createWsFrame 1 [65] true [1, 2, 3, 4] = [129, 129, 1, 2, 3, 4, 64] := by decide
example : _parseWsFrame [129, 1, 65] = .frame 1 [65] 3 := by decide
example : _parseWsFrame [129, 129, 1, 2, 3, 4, 64] = .frame 1 [65] 7 := by decide
example : _parseWsFrame [129, 1] = .incomplete := by decide
example : _parseWsFrame [129, 126, 0] = .incomplete := by decide
example : _parseWsFrame [129, 127, 0, 0, 0, 1, 0, 0, 0, 2, 170, 187] = .frame 1 [170, 187] 12 := by
  decide

/-! Bit-level helper facts, all on bounded ranges. -/

theorem byte0_opcode : ∀ op, op < 16 → ((128 ||| op) % 256) &&& 15 = op := by decide

theorem byte1_facts : ∀ k, k < 128 →
    (128 ||| k) &&& 128 = 128 ∧ (128 ||| k) &&& 127 = k ∧
    k &&& 128 = 0 ∧ k &&& 127 = k := by decide

theorem and255_eq_mod (x : Nat) : x &&& 255 = x % 256 := by
  have := Nat.and_pow_two_sub_one_eq_mod x 8
  norm_num at this
  exact this

theorem orAdd (a b m k : Nat) (hm : m = 2 ^ k) (hb : b < m) :
    a * m ||| b = a * m + b := by
  subst hm
  rw [Nat.mul_comm, ← Nat.mul_add_lt_is_or hb, Nat.mul_comm]

theorem len16_roundtrip (len : Nat) (h : len ≤ 65535) :
    (((len >>> 8) &&& 255) <<< 8 ||| (len &&& 255)) = len := by
  rw [and255_eq_mod, and255_eq_mod, Nat.shiftRight_eq_div_pow, Nat.shiftLeft_eq]
  norm_num
  rw [orAdd _ _ 256 8 (by norm_num) (by omega)]
  omega

theorem len32_roundtrip (len : Nat) (h : len < 2147483648) :
    toInt32 (((len >>> 24) &&& 255) <<< 24 ||| ((len >>> 16) &&& 255) <<< 16 |||
      ((len >>> 8) &&& 255) <<< 8 ||| (len &&& 255)) = (len : Int) := by
  rw [and255_eq_mod, and255_eq_mod, and255_eq_mod, and255_eq_mod,
    Nat.shiftRight_eq_div_pow, Nat.shiftRight_eq_div_pow, Nat.shiftRight_eq_div_pow,
    Nat.shiftLeft_eq, Nat.shiftLeft_eq, Nat.shiftLeft_eq]
  norm_num
  set c6 := len / 16777216 % 256 with hc6
  set c7 := len / 65536 % 256 with hc7
  set c8 := len / 256 % 256 with hc8
  set c9 := len % 256 with hc9
  have t1 : c6 * 16777216 ||| c7 * 65536 = c6 * 16777216 + c7 * 65536 :=
    orAdd c6 (c7 * 65536) 16777216 24 (by norm_num) (by omega)
  have t2 : c6 * 16777216 + c7 * 65536 ||| c8 * 256 =
      c6 * 16777216 + c7 * 65536 + c8 * 256 := by
    have e : c6 * 16777216 + c7 * 65536 = (c6 * 256 + c7) * 65536 := by ring
    rw [e, orAdd _ _ 65536 16 (by norm_num) (by omega)]
  have t3 : c6 * 16777216 + c7 * 65536 + c8 * 256 ||| c9 =
      c6 * 16777216 + c7 * 65536 + c8 * 256 + c9 := by
    have e : c6 * 16777216 + c7 * 65536 + c8 * 256 =
        (c6 * 65536 + c7 * 256 + c8) * 256 := by ring
    rw [e, orAdd _ _ 256 8 (by norm_num) (by omega)]
  rw [t1, t2, t3]
  have hv : c6 * 16777216 + c7 * 65536 + c8 * 256 + c9 = len := by omega
  rw [hv]
  unfold toInt32
  rw [Nat.mod_eq_of_lt (by omega), if_pos (by omega)]

/-! List plumbing. -/

theorem getD_append_right' (l₁ l₂ : Bytes) (i : Nat) :
    (l₁ ++ l₂).getD (l₁.length + i) 0 = l₂.getD i 0 := by
  induction l₁ with
  | nil => simp
  | cons a l ih =>
    rw [List.cons_append]
    have h : (a :: l).length + i = (l.length + i) + 1 := by simp [Nat.succ_add]
    rw [h, List.getD_cons_succ]
    exact ih

theorem getD_append_left' (l₁ l₂ : Bytes) (i : Nat) (h : i < l₁.length) :
    (l₁ ++ l₂).getD i 0 = l₁.getD i 0 := by
  simp [List.getD_eq_getElem?_getD, List.getElem?_append, h]

theorem getD_take (l : Bytes) (n i : Nat) (h : i < n) :
    (l.take n).getD i 0 = l.getD i 0 := by
  simp [List.getD_eq_getElem?_getD, List.getElem?_take_of_lt h]

theorem maskBytes_length (maskKey : Bytes) :
    ∀ (i : Nat) (payload : Bytes), (maskBytes maskKey i payload).length = payload.length := by
  intro i payload
  induction payload generalizing i with
  | nil => rfl
  | cons b rest ih => simp [maskBytes, ih]

theorem maskBytes_getD (maskKey : Bytes) :
    ∀ (payload : Bytes) (i j : Nat), j < payload.length →
      (maskBytes maskKey i payload).getD j 0 =
        payload.getD j 0 ^^^ maskKey.getD ((i + j) % 4) 0 := by
  intro payload
  induction payload with
  | nil => intro i j h; simp at h
  | cons b rest ih =>
    intro i j h
    cases j with
    | zero => simp [maskBytes]
    | succ j' =>
      have hj : j' < rest.length := by simpa using Nat.lt_of_succ_lt_succ h
      simp only [maskBytes, List.getD_cons_succ]
      rw [ih (i + 1) j' hj]
      have e : i + 1 + j' = i + (j' + 1) := by omega
      rw [e]

theorem rangeMap_getD (l : Bytes) :
    (List.range l.length).map (fun i => l.getD i 0) = l := by
  apply List.ext_getElem
  · simp
  · intro i h1 h2
    simp [List.getD_eq_getElem?_getD, List.getElem?_eq_getElem h2]

/-- In-range `Uint8Array.slice` is `take` then `drop`. -/
theorem jsSliceU8_in_range (l : Bytes) (off k : Nat) (h : off + k ≤ l.length) :
    jsSliceU8 l (off : Int) ((off : Int) + (k : Int)) = (l.take (off + k)).drop off := by
  unfold jsSliceU8 jsRelIndex
  have h1 : ¬((off : Int) < 0) := by omega
  have h2 : ¬((off : Int) + (k : Int) < 0) := by omega
  rw [if_neg h1, if_neg h2]
  have e1 : ((off : Int) + (k : Int)).toNat = off + k := by omega
  have e2 : ((off : Int)).toNat = off := by omega
  rw [e1, e2, Nat.min_eq_left h, Nat.min_eq_left (by omega)]

theorem take_drop_middle (H X r : Bytes) :
    ((H ++ (X ++ r)).take (H.length + X.length)).drop H.length = X := by
  rw [List.take_append, List.take_append_of_le_length (Nat.le_refl _),
    List.take_length, List.drop_left]

/-! Characterization of `wsFinish` on well-formed input. -/

theorem wsFinish_unmasked (H payload r : Bytes) (op : Nat) :
    wsFinish (H ++ (payload ++ r)) op false ((payload.length : Nat) : Int) H.length =
      .frame op payload ((H.length : Int) + payload.length) := by
  unfold wsFinish
  rw [if_neg (by simp)]
  rw [if_neg (by simp only [List.length_append]; omega)]
  have hsl : jsSliceU8 (H ++ (payload ++ r)) (H.length : Int)
      ((H.length : Int) + (payload.length : Int)) = payload := by
    rw [jsSliceU8_in_range _ _ _ (by simp only [List.length_append]; omega)]
    exact take_drop_middle H payload r
  rw [hsl]

theorem wsFinish_masked (H maskKey payload r : Bytes) (op : Nat)
    (hkey : maskKey.length = 4) :
    wsFinish (H ++ (maskKey ++ (maskBytes maskKey 0 payload ++ r))) op true
        ((payload.length : Nat) : Int) H.length =
      .frame op payload ((H.length : Int) + 4 + payload.length) := by
  have hml : (maskBytes maskKey 0 payload).length = payload.length :=
    maskBytes_length maskKey 0 payload
  unfold wsFinish
  rw [if_pos rfl]
  rw [if_neg (by simp only [List.length_append, hml, hkey]; omega)]
  rw [if_neg (by omega)]
  have hslice : jsSliceU8 (H ++ (maskKey ++ (maskBytes maskKey 0 payload ++ r)))
      (H.length : Int) ((H.length : Int) + 4) = maskKey := by
    have h4 : ((H.length : Int) + 4) = ((H.length : Int) + ((4 : Nat) : Int)) := by
      norm_num
    rw [h4, jsSliceU8_in_range _ _ _ (by simp only [List.length_append, hkey]; omega)]
    have ht := take_drop_middle H maskKey (maskBytes maskKey 0 payload ++ r)
    rw [hkey] at ht
    exact ht
  have htn : (((payload.length : Nat) : Int)).toNat = payload.length := by omega
  have hread : ∀ i, i < payload.length →
      (H ++ (maskKey ++ (maskBytes maskKey 0 payload ++ r))).getD
        (H.length + 4 + i) 0 = payload.getD i 0 ^^^ maskKey.getD (i % 4) 0 := by
    intro i hi
    have e1 : H.length + 4 + i = H.length + (4 + i) := by omega
    rw [e1, getD_append_right']
    have e2 : 4 + i = maskKey.length + i := by omega
    rw [e2, getD_append_right']
    rw [getD_append_left' _ _ _ (by omega)]
    rw [maskBytes_getD maskKey payload 0 i hi]
    simp
  have hext : (List.range ((payload.length : Nat) : Int).toNat).map
      (fun i => (H ++ (maskKey ++ (maskBytes maskKey 0 payload ++ r))).getD
        (H.length + 4 + i) 0 ^^^
        (jsSliceU8 (H ++ (maskKey ++ (maskBytes maskKey 0 payload ++ r)))
          (H.length : Int) ((H.length : Int) + 4)).getD (i % 4) 0) = payload := by
    rw [htn]
    calc (List.range payload.length).map
          (fun i => (H ++ (maskKey ++ (maskBytes maskKey 0 payload ++ r))).getD
            (H.length + 4 + i) 0 ^^^
            (jsSliceU8 (H ++ (maskKey ++ (maskBytes maskKey 0 payload ++ r)))
              (H.length : Int) ((H.length : Int) + 4)).getD (i % 4) 0)
        = (List.range payload.length).map (fun i => payload.getD i 0) := by
          apply List.map_congr_left
          intro i hi
          rw [List.mem_range] at hi
          rw [hslice, hread i hi, Nat.xor_assoc, Nat.xor_self, Nat.xor_zero]
      _ = payload := rangeMap_getD payload
  rw [hext]

/-! The master round-trip theorem: a frame built by `_createWsFrame`, followed
by arbitrary trailing bytes, parses back to exactly the original opcode and
payload, with `totalLength` equal to the frame's own byte length. -/

theorem parse_create_append (op : Nat) (payload maskKey : Bytes) (masked : Bool)
    (r : Bytes) (hop : op < 16) (hkey : masked = true → maskKey.length = 4)
    (hlen : payload.length < 2147483648) :
    _parseWsFrame (_createWsFrame op payload masked maskKey ++ r) =
      .frame op payload ((_createWsFrame op payload masked maskKey).length : Int) := by
  have e15 : ((128 ||| op) % 256) &&& 15 = op := byte0_opcode op hop
  have hbt : ((128 : Nat) != 0) = true := rfl
  have hbf : ((0 : Nat) != 0) = false := rfl
  rcases Nat.lt_or_ge payload.length 126 with h1 | h1
  · -- size class 0..125
    have e127 : payload.length &&& 127 = payload.length :=
      (byte1_facts _ (by omega)).2.2.2
    have e128 : payload.length &&& 128 = 0 := (byte1_facts _ (by omega)).2.2.1
    have m127 : (128 ||| payload.length) &&& 127 = payload.length :=
      (byte1_facts _ (by omega)).2.1
    have m128 : (128 ||| payload.length) &&& 128 = 128 :=
      (byte1_facts _ (by omega)).1
    cases masked with
    | false =>
      have hcr : _createWsFrame op payload false maskKey =
          [(128 ||| op) % 256, payload.length] ++ payload := by
        simp [_createWsFrame, wsHeader, maskBit, if_pos (show payload.length ≤ 125 by omega)]
      rw [hcr, List.append_assoc, _parseWsFrame]
      simp only [List.cons_append, List.nil_append, List.getD_cons_succ,
        List.getD_cons_zero, List.length_cons, List.length_append, e127, e128, e15, hbf]
      rw [if_neg (by omega), if_neg (by omega), if_neg (by omega)]
      have hfin := wsFinish_unmasked [(128 ||| op) % 256, payload.length] payload r op
      simp only [List.cons_append, List.nil_append, List.length_cons,
        List.length_nil, Nat.zero_add] at hfin
      rw [hfin]
      congr 1
      omega
    | true =>
      have hk4 := hkey rfl
      have hcr : _createWsFrame op payload true maskKey =
          [(128 ||| op) % 256, 128 ||| payload.length] ++
            (maskKey ++ maskBytes maskKey 0 payload) := by
        simp [_createWsFrame, wsHeader, maskBit, if_pos (show payload.length ≤ 125 by omega)]
      rw [hcr, List.append_assoc, List.append_assoc, _parseWsFrame]
      simp only [List.cons_append, List.nil_append, List.getD_cons_succ,
        List.getD_cons_zero, List.length_cons, List.length_append, m127, m128, e15, hbt]
      rw [if_neg (by omega), if_neg (by omega), if_neg (by omega)]
      have hfin := wsFinish_masked [(128 ||| op) % 256, 128 ||| payload.length]
        maskKey payload r op hk4
      simp only [List.cons_append, List.nil_append, List.length_cons,
        List.length_nil, Nat.zero_add] at hfin
      rw [hfin]
      congr 1
      rw [maskBytes_length maskKey 0 payload, hk4]
      omega
  · rcases Nat.lt_or_ge payload.length 65536 with h2 | h2
    · -- size class 126..65535
      have e16 := len16_roundtrip payload.length (by omega)
      cases masked with
      | false =>
        have m127 : ((126 : Nat)) &&& 127 = 126 := by decide
        have m128 : ((126 : Nat)) &&& 128 = 0 := by decide
        have hcr : _createWsFrame op payload false maskKey =
            [(128 ||| op) % 256, 126,
              (payload.length >>> 8) &&& 255, payload.length &&& 255] ++ payload := by
          simp [_createWsFrame, wsHeader, maskBit, if_neg (show ¬payload.length ≤ 125 by omega),
            if_pos (show payload.length ≤ 65535 by omega)]
        rw [hcr, List.append_assoc, _parseWsFrame]
        simp only [List.cons_append, List.nil_append, List.getD_cons_succ,
          List.getD_cons_zero, List.length_cons, List.length_append, m127, m128, e15, hbf]
        rw [if_neg (by omega), if_pos (by trivial), if_neg (by omega)]
        rw [e16]
        have hfin := wsFinish_unmasked [(128 ||| op) % 256, 126,
          (payload.length >>> 8) &&& 255, payload.length &&& 255] payload r op
        simp only [List.cons_append, List.nil_append, List.length_cons,
          List.length_nil, Nat.zero_add] at hfin
        rw [hfin]
        congr 1
        omega
      | true =>
        have hk4 := hkey rfl
        have m127 : ((128 : Nat) ||| 126) &&& 127 = 126 := by decide
        have m128 : ((128 : Nat) ||| 126) &&& 128 = 128 := by decide
        have hcr : _createWsFrame op payload true maskKey =
            [(128 ||| op) % 256, 128 ||| 126,
              (payload.length >>> 8) &&& 255, payload.length &&& 255] ++
              (maskKey ++ maskBytes maskKey 0 payload) := by
          simp [_createWsFrame, wsHeader, maskBit, if_neg (show ¬payload.length ≤ 125 by omega),
            if_pos (show payload.length ≤ 65535 by omega)]
        rw [hcr, List.append_assoc, List.append_assoc, _parseWsFrame]
        simp only [List.cons_append, List.nil_append, List.getD_cons_succ,
          List.getD_cons_zero, List.length_cons, List.length_append, m127, m128, e15, hbt]
        rw [if_neg (by omega), if_pos (by trivial), if_neg (by omega)]
        rw [e16]
        have hfin := wsFinish_masked [(128 ||| op) % 256, 128 ||| 126,
          (payload.length >>> 8) &&& 255, payload.length &&& 255] maskKey payload r op hk4
        simp only [List.cons_append, List.nil_append, List.length_cons,
          List.length_nil, Nat.zero_add] at hfin
        rw [hfin]
        congr 1
        rw [maskBytes_length maskKey 0 payload, hk4]
        omega
    · -- size class 65536 and above
      have e32 := len32_roundtrip payload.length (by omega)
      cases masked with
      | false =>
        have m127 : ((127 : Nat)) &&& 127 = 127 := by decide
        have m128 : ((127 : Nat)) &&& 128 = 0 := by decide
        have hcr : _createWsFrame op payload false maskKey =
            [(128 ||| op) % 256, 127, 0, 0, 0, 0,
              (payload.length >>> 24) &&& 255, (payload.length >>> 16) &&& 255,
              (payload.length >>> 8) &&& 255, payload.length &&& 255] ++ payload := by
          simp [_createWsFrame, wsHeader, maskBit, if_neg (show ¬payload.length ≤ 125 by omega),
            if_neg (show ¬payload.length ≤ 65535 by omega)]
        rw [hcr, List.append_assoc, _parseWsFrame]
        simp only [List.cons_append, List.nil_append, List.getD_cons_succ,
          List.getD_cons_zero, List.length_cons, List.length_append, m127, m128, e15, hbf]
        rw [if_neg (by omega), if_neg (by omega), if_pos (by trivial), if_neg (by omega)]
        rw [e32]
        have hfin := wsFinish_unmasked [(128 ||| op) % 256, 127, 0, 0, 0, 0,
          (payload.length >>> 24) &&& 255, (payload.length >>> 16) &&& 255,
          (payload.length >>> 8) &&& 255, payload.length &&& 255] payload r op
        simp only [List.cons_append, List.nil_append, List.length_cons,
          List.length_nil, Nat.zero_add] at hfin
        rw [hfin]
        congr 1
        omega
      | true =>
        have hk4 := hkey rfl
        have m127 : ((128 : Nat) ||| 127) &&& 127 = 127 := by decide
        have m128 : ((128 : Nat) ||| 127) &&& 128 = 128 := by decide
        have hcr : _createWsFrame op payload true maskKey =
            [(128 ||| op) % 256, 128 ||| 127, 0, 0, 0, 0,
              (payload.length >>> 24) &&& 255, (payload.length >>> 16) &&& 255,
              (payload.length >>> 8) &&& 255, payload.length &&& 255] ++
              (maskKey ++ maskBytes maskKey 0 payload) := by
          simp [_createWsFrame, wsHeader, maskBit, if_neg (show ¬payload.length ≤ 125 by omega),
            if_neg (show ¬payload.length ≤ 65535 by omega)]
        rw [hcr, List.append_assoc, List.append_assoc, _parseWsFrame]
        simp only [List.cons_append, List.nil_append, List.getD_cons_succ,
          List.getD_cons_zero, List.length_cons, List.length_append, m127, m128, e15, hbt]
        rw [if_neg (by omega), if_neg (by omega), if_pos (by trivial), if_neg (by omega)]
        rw [e32]
        have hfin := wsFinish_masked [(128 ||| op) % 256, 128 ||| 127, 0, 0, 0, 0,
          (payload.length >>> 24) &&& 255, (payload.length >>> 16) &&& 255,
          (payload.length >>> 8) &&& 255, payload.length &&& 255] maskKey payload r op hk4
        simp only [List.cons_append, List.nil_append, List.length_cons,
          List.length_nil, Nat.zero_add] at hfin
        rw [hfin]
        congr 1
        rw [maskBytes_length maskKey 0 payload, hk4]
        omega

/-! Prefix behaviour: a strict prefix of a frame that parses exactly (its
`totalLength` equals its byte length) always parses as `incomplete`. -/

theorem wsFinish_take_incomplete (data : Bytes) (op opr : Nat) (m : Bool) (pl : Int)
    (off : Nat) (plr : Bytes)
    (h : wsFinish data op m pl off = .frame opr plr ((data.length : Nat) : Int))
    (n : Nat) (hn : n < data.length) :
    wsFinish (data.take n) op m pl off = .incomplete := by
  unfold wsFinish at h ⊢
  cases m with
  | true =>
    rw [if_pos rfl] at h ⊢
    by_cases hg : (data.length : Int) < (off : Int) + 4 + pl
    · rw [if_pos hg] at h
      exact ParseResult.noConfusion h
    · rw [if_neg hg] at h
      by_cases hq : pl < 0
      · rw [if_pos hq] at h
        exact ParseResult.noConfusion h
      · rw [if_neg hq] at h
        injection h with h1 h2 h3
        rw [if_pos ?goal]
        case goal =>
          simp only [List.length_take]
          rw [Nat.min_eq_left (Nat.le_of_lt hn)]
          omega
  | false =>
    rw [if_neg (by simp)] at h ⊢
    by_cases hg : (data.length : Int) < (off : Int) + pl
    · rw [if_pos hg] at h
      exact ParseResult.noConfusion h
    · rw [if_neg hg] at h
      injection h with h1 h2 h3
      rw [if_pos ?goal]
      case goal =>
        simp only [List.length_take]
        rw [Nat.min_eq_left (Nat.le_of_lt hn)]
        omega

theorem parse_take_incomplete (f : Bytes) (opr : Nat) (plr : Bytes)
    (h : _parseWsFrame f = .frame opr plr ((f.length : Nat) : Int))
    (n : Nat) (hn : n < f.length) :
    _parseWsFrame (f.take n) = .incomplete := by
  unfold _parseWsFrame at h ⊢
  by_cases h2 : f.length < 2
  · rw [if_pos h2] at h
    exact ParseResult.noConfusion h
  rw [if_neg h2] at h
  have hlt : (f.take n).length = n := by
    simp only [List.length_take]
    exact Nat.min_eq_left (Nat.le_of_lt hn)
  by_cases hn2 : n < 2
  · rw [if_pos (by omega : (f.take n).length < 2)]
  · rw [if_neg (by omega : ¬(f.take n).length < 2)]
    have g0 : (f.take n).getD 0 0 = f.getD 0 0 := getD_take f n 0 (by omega)
    have g1 : (f.take n).getD 1 0 = f.getD 1 0 := getD_take f n 1 (by omega)
    rw [g0, g1]
    by_cases c126 : f.getD 1 0 &&& 127 = 126
    · rw [if_pos c126] at h ⊢
      by_cases h4 : f.length < 4
      · rw [if_pos h4] at h
        exact ParseResult.noConfusion h
      rw [if_neg h4] at h
      by_cases hn4 : n < 4
      · rw [if_pos (by omega : (f.take n).length < 4)]
      · rw [if_neg (by omega : ¬(f.take n).length < 4)]
        have g2 : (f.take n).getD 2 0 = f.getD 2 0 := getD_take f n 2 (by omega)
        have g3 : (f.take n).getD 3 0 = f.getD 3 0 := getD_take f n 3 (by omega)
        rw [g2, g3]
        exact wsFinish_take_incomplete f _ opr _ _ 4 plr h n hn
    · rw [if_neg c126] at h ⊢
      by_cases c127 : f.getD 1 0 &&& 127 = 127
      · rw [if_pos c127] at h ⊢
        by_cases h10 : f.length < 10
        · rw [if_pos h10] at h
          exact ParseResult.noConfusion h
        rw [if_neg h10] at h
        by_cases hn10 : n < 10
        · rw [if_pos (by omega : (f.take n).length < 10)]
        · rw [if_neg (by omega : ¬(f.take n).length < 10)]
          have g6 : (f.take n).getD 6 0 = f.getD 6 0 := getD_take f n 6 (by omega)
          have g7 : (f.take n).getD 7 0 = f.getD 7 0 := getD_take f n 7 (by omega)
          have g8 : (f.take n).getD 8 0 = f.getD 8 0 := getD_take f n 8 (by omega)
          have g9 : (f.take n).getD 9 0 = f.getD 9 0 := getD_take f n 9 (by omega)
          rw [g6, g7, g8, g9]
          exact wsFinish_take_incomplete f _ opr _ _ 10 plr h n hn
      · rw [if_neg c127] at h ⊢
        exact wsFinish_take_incomplete f _ opr _ _ 2 plr h n hn

/-! Bytes 2-5 of a frame with length code 127 (the high 32 bits of the 64-bit
length field) are never read by `_parseWsFrame`. -/

theorem drop10_take (L1 L2 rest : Bytes) (k : Nat)
    (h1 : L1.length = 10) (h2 : L2.length = 10) :
    ((L1 ++ rest).take k).drop 10 = ((L2 ++ rest).take k).drop 10 := by
  rcases le_or_lt k 10 with hk | hk
  · have d1 : ((L1 ++ rest).take k).length ≤ 10 := by
      simp only [List.length_take, List.length_append]
      omega
    have d2 : ((L2 ++ rest).take k).length ≤ 10 := by
      simp only [List.length_take, List.length_append]
      omega
    rw [List.drop_eq_nil_of_le d1, List.drop_eq_nil_of_le d2]
  · obtain ⟨j, rfl⟩ : ∃ j, k = 10 + j := ⟨k - 10, by omega⟩
    have t1 : (L1 ++ rest).take (L1.length + j) = L1 ++ rest.take j :=
      List.take_append j
    have t2 : (L2 ++ rest).take (L2.length + j) = L2 ++ rest.take j :=
      List.take_append j
    rw [h1] at t1
    rw [h2] at t2
    rw [t1, t2, List.drop_left' h1, List.drop_left' h2]

theorem wsFinish_middle_congr (L1 L2 rest : Bytes) (op : Nat) (m : Bool) (pl : Int)
    (h1 : L1.length = 10) (h2 : L2.length = 10) :
    wsFinish (L1 ++ rest) op m pl 10 = wsFinish (L2 ++ rest) op m pl 10 := by
  have hlen : (L1 ++ rest).length = (L2 ++ rest).length := by
    simp [List.length_append, h1, h2]
  have hgetD : ∀ j, (L1 ++ rest).getD (10 + j) 0 = (L2 ++ rest).getD (10 + j) 0 := by
    intro j
    have a1 := getD_append_right' L1 rest j
    have a2 := getD_append_right' L2 rest j
    rw [h1] at a1
    rw [h2] at a2
    rw [a1, a2]
  have hgetD14 : ∀ i, (L1 ++ rest).getD (10 + 4 + i) 0 = (L2 ++ rest).getD (10 + 4 + i) 0 := by
    intro i
    have e : 10 + 4 + i = 10 + (4 + i) := by omega
    rw [e]
    exact hgetD (4 + i)
  have hsl : ∀ e : Int, jsSliceU8 (L1 ++ rest) ((10 : Nat) : Int) e =
      jsSliceU8 (L2 ++ rest) ((10 : Nat) : Int) e := by
    intro e
    unfold jsSliceU8
    rw [hlen]
    have hrel10 : jsRelIndex (L2 ++ rest).length ((10 : Nat) : Int) = 10 := by
      unfold jsRelIndex
      rw [if_neg (by omega), Int.toNat_natCast,
        Nat.min_eq_left (by simp only [List.length_append, h2]; omega)]
    rw [hrel10]
    exact drop10_take L1 L2 rest _ h1 h2
  have hc : ((L1 ++ rest).length : Int) = ((L2 ++ rest).length : Int) := by rw [hlen]
  unfold wsFinish
  simp only [hc, hsl, hgetD14]

theorem parse127_ignores_high (b0 b1 a b c d e f g h : Nat) (rest : Bytes)
    (hb1 : b1 &&& 127 = 127) :
    _parseWsFrame (b0 :: b1 :: a :: b :: c :: d :: e :: f :: g :: h :: rest) =
    _parseWsFrame (b0 :: b1 :: 0 :: 0 :: 0 :: 0 :: e :: f :: g :: h :: rest) := by
  have hL : _parseWsFrame (b0 :: b1 :: a :: b :: c :: d :: e :: f :: g :: h :: rest) =
      wsFinish (b0 :: b1 :: a :: b :: c :: d :: e :: f :: g :: h :: rest)
        (b0 &&& 15) (b1 &&& 128 != 0)
        (toInt32 (e <<< 24 ||| f <<< 16 ||| g <<< 8 ||| h)) 10 := by
    unfold _parseWsFrame
    simp only [List.length_cons, List.getD_cons_succ, List.getD_cons_zero]
    rw [hb1]
    rw [if_neg (by omega), if_neg (by omega), if_pos (by trivial), if_neg (by omega)]
  have hR : _parseWsFrame (b0 :: b1 :: 0 :: 0 :: 0 :: 0 :: e :: f :: g :: h :: rest) =
      wsFinish (b0 :: b1 :: 0 :: 0 :: 0 :: 0 :: e :: f :: g :: h :: rest)
        (b0 &&& 15) (b1 &&& 128 != 0)
        (toInt32 (e <<< 24 ||| f <<< 16 ||| g <<< 8 ||| h)) 10 := by
    unfold _parseWsFrame
    simp only [List.length_cons, List.getD_cons_succ, List.getD_cons_zero]
    rw [hb1]
    rw [if_neg (by omega), if_neg (by omega), if_pos (by trivial), if_neg (by omega)]
  rw [hL, hR]
  exact wsFinish_middle_congr [b0, b1, a, b, c, d, e, f, g, h]
    [b0, b1, 0, 0, 0, 0, e, f, g, h] rest (b0 &&& 15) (b1 &&& 128 != 0)
    (toInt32 (e <<< 24 ||| f <<< 16 ||| g <<< 8 ||| h)) rfl rfl

/-! Claim theorems for the frame codec. -/

/-- C1: for every opcode `op` (a 4-bit value), every payload of length 0, 125,
126, 65535 or 65536, and both `masked = true` and `masked = false` (with any
4-byte mask key standing in for the randomly drawn one), parsing the frame
produced by `_createWsFrame op payload masked` with `_parseWsFrame` succeeds
(is not `incomplete`) and returns exactly the same opcode and the same payload
bytes. -/
theorem C1_create_parse_roundtrip (op : Nat) (payload maskKey : Bytes) (masked : Bool)
    (hop : op < 16) (_hpv : ByteVals payload) (_hkv : ByteVals maskKey)
    (hkey : masked = true → maskKey.length = 4)
    (hlen : payload.length = 0 ∨ payload.length = 125 ∨ payload.length = 126 ∨
      payload.length = 65535 ∨ payload.length = 65536) :
    _parseWsFrame (_createWsFrame op payload masked maskKey) =
      .frame op payload ((_createWsFrame op payload masked maskKey).length : Int) := by
  have h := parse_create_append op payload maskKey masked [] hop hkey
    (by rcases hlen with h | h | h | h | h <;> omega)
  rwa [List.append_nil] at h

theorem C1_create_parse_roundtrip_witness :
    _parseWsFrame (_createWsFrame 1 [] true [1, 2, 3, 4]) =
      .frame 1 [] ((_createWsFrame 1 [] true [1, 2, 3, 4]).length : Int) :=
  C1_create_parse_roundtrip 1 [] [1, 2, 3, 4] true (by decide) (by decide) (by decide)
    (fun _ => rfl) (by decide)

/-- C2: for every valid encoded frame (any payload shorter than 2^31 bytes,
masked or not) and every proper byte-prefix of it, `_parseWsFrame` returns
`incomplete` (the JS `null`), and in particular neither a frame nor an error —
whether the prefix ends inside the fixed header, the extended length field,
the mask key, or the payload. -/
theorem C2_prefix_incomplete (op : Nat) (payload maskKey : Bytes) (masked : Bool)
    (n : Nat) (hop : op < 16) (hkey : masked = true → maskKey.length = 4)
    (hlen : payload.length < 2147483648)
    (hn : n < (_createWsFrame op payload masked maskKey).length) :
    _parseWsFrame ((_createWsFrame op payload masked maskKey).take n) = .incomplete := by
  have h := parse_create_append op payload maskKey masked [] hop hkey hlen
  rw [List.append_nil] at h
  exact parse_take_incomplete _ op payload h n hn

theorem C2_prefix_incomplete_witness :
    _parseWsFrame ((_createWsFrame 1 [65] false []).take 2) = .incomplete :=
  C2_prefix_incomplete 1 [65] [] false 2 (by decide) (fun hx => nomatch hx)
    (by decide) (by decide)

/-- C4 counterexample: the claim says a 64-bit length field whose value exceeds
the 32-bit range causes the frame to be rejected.  The concrete frame below
declares the 64-bit length 1 * 2^32 + 2 = 4294967298 (bytes 2-9 of the header
are 0,0,0,1,0,0,0,2), which exceeds the 32-bit range, yet `_parseWsFrame` does
not reject it: it parses it successfully as a 2-byte frame using only the low
32 bits of the declared length. -/
theorem C4_counterexample :
    _parseWsFrame [129, 127, 0, 0, 0, 1, 0, 0, 0, 2, 170, 187] =
      .frame 1 [170, 187] 12 ∧ (1 : Nat) * 4294967296 + 2 > 4294967295 := by
  constructor
  · decide
  · decide

/-- C4 amended: `_parseWsFrame` does not reject malformed or oversized 64-bit
payload lengths.  For every frame whose 7-bit length code is 127 (any header
byte 1 with low 7 bits 127, masked or not), the four high bytes of the 8-byte
length field are ignored entirely: the parse result is identical to that of
the same frame with bytes 2-5 replaced by zero, so the declared length is
silently coerced to its low 32 bits. -/
theorem C4_low32_coercion (b0 b1 a b c d e f g h : Nat) (rest : Bytes)
    (hb1 : b1 &&& 127 = 127) :
    _parseWsFrame (b0 :: b1 :: a :: b :: c :: d :: e :: f :: g :: h :: rest) =
    _parseWsFrame (b0 :: b1 :: 0 :: 0 :: 0 :: 0 :: e :: f :: g :: h :: rest) :=
  parse127_ignores_high b0 b1 a b c d e f g h rest hb1

theorem C4_low32_coercion_witness :
    _parseWsFrame [129, 127, 9, 9, 9, 9, 0, 0, 0, 2, 170, 187] =
    _parseWsFrame [129, 127, 0, 0, 0, 0, 0, 0, 0, 2, 170, 187] :=
  C4_low32_coercion 129 127 9 9 9 9 0 0 0 2 [170, 187] (by decide)

/-- C10: `_parseWsFrame` is suffix-independent and reports exact consumption.
For every valid complete encoded frame and every arbitrary trailing byte
sequence `r`, parsing the concatenation returns the same opcode and payload as
parsing the frame alone, with `totalLength` equal to the frame's byte length;
dropping `totalLength` bytes from the concatenation leaves exactly `r`. -/
theorem C10_suffix_independent (op : Nat) (payload maskKey r : Bytes) (masked : Bool)
    (hop : op < 16) (hkey : masked = true → maskKey.length = 4)
    (hlen : payload.length < 2147483648) :
    _parseWsFrame (_createWsFrame op payload masked maskKey ++ r) =
      .frame op payload ((_createWsFrame op payload masked maskKey).length : Int) ∧
    (_createWsFrame op payload masked maskKey ++ r).drop
      (_createWsFrame op payload masked maskKey).length = r :=
  ⟨parse_create_append op payload maskKey masked r hop hkey hlen,
    List.drop_left _ _⟩

theorem C10_suffix_independent_witness :
    _parseWsFrame (_createWsFrame 1 [65] false [] ++ [9, 9]) =
      .frame 1 [65] ((_createWsFrame 1 [65] false []).length : Int) ∧
    (_createWsFrame 1 [65] false [] ++ [9, 9]).drop
      (_createWsFrame 1 [65] false []).length = [9, 9] :=
  C10_suffix_independent 1 [65] [] [9, 9] false (by decide) (fun hx => nomatch hx)
    (by decide)

/-! WebSocket bridge: host-connection close handler. -/

/-- Events observable on the bridge's mock Socket, in order. -/
inductive BridgeEvent where
  | deliver (bytes : Bytes)
  | endReadable
  | emitClose
  deriving DecidableEq, Repr

/-- `nativeWs.onclose` handler of `_handleWebSocketUpgrade`
(src/src/memfs-entry.js lines 821-835): compute `code = event.code || 1000`,
build the 2-byte big-endian close payload, wrap it in an unmasked close frame
(opcode 0x08) and push it to the mock socket; then, in a deferred timeout,
end the socket's readable side and emit its close event.  The returned list is
the observable event sequence. -/
def wsOnClose (eventCode : Nat) : List BridgeEvent :=
  [.deliver (_createWsFrame 8
      [((if eventCode = 0 then 1000 else eventCode) >>> 8) &&& 255,
       (if eventCode = 0 then 1000 else eventCode) &&& 255] false []),
   .endReadable, .emitClose]

/-- C5 counterexample: the claim says the close frame payload is the close
code `c` in big-endian for every numeric close code; but for `c = 0` (a value
the CloseEvent type admits) the handler substitutes 1000 (`event.code || 1000`)
and the delivered frame is `[136, 2, 3, 232]`, not the frame carrying payload
`[0, 0]`. -/
theorem C5_counterexample :
    wsOnClose 0 = [.deliver [136, 2, 3, 232], .endReadable, .emitClose] ∧
    ([136, 2, 3, 232] : Bytes) ≠ _createWsFrame 8 [0, 0] false [] := by
  constructor
  · decide
  · decide

/-- C5 amended: for every nonzero close code `c < 2^16`, the observable event
sequence of the close handler is exactly one delivered frame — the unmasked
close frame (opcode 0x08, FIN set, header `[136, 2]`) whose 2-byte payload is
`c` in big-endian — followed by ending the socket's readable side and emitting
its close event, and nothing after; for `c = 0` the code 1000 is used instead. -/
theorem C5_close_event_sequence (c : Nat) (h0 : 0 < c) (h16 : c < 65536) :
    wsOnClose c = [.deliver (_createWsFrame 8 [c / 256, c % 256] false []),
      .endReadable, .emitClose] ∧
    _createWsFrame 8 [c / 256, c % 256] false [] = [136, 2, c / 256, c % 256] := by
  have e1 : (c >>> 8) &&& 255 = c / 256 := by
    rw [and255_eq_mod, Nat.shiftRight_eq_div_pow]
    norm_num
    omega
  have e2 : c &&& 255 = c % 256 := and255_eq_mod c
  have hfr : _createWsFrame 8 [c / 256, c % 256] false [] =
      [136, 2, c / 256, c % 256] := by
    have hh : wsHeader 8 false 2 = [136, 2] := by decide
    calc _createWsFrame 8 [c / 256, c % 256] false []
        = wsHeader 8 false 2 ++ [c / 256, c % 256] := rfl
      _ = [136, 2] ++ [c / 256, c % 256] := by rw [hh]
      _ = [136, 2, c / 256, c % 256] := rfl
  refine ⟨?_, hfr⟩
  unfold wsOnClose
  rw [if_neg (by omega), e1, e2]

theorem C5_close_event_sequence_witness :
    wsOnClose 1000 = [.deliver (_createWsFrame 8 [1000 / 256, 1000 % 256] false []),
      .endReadable, .emitClose] ∧
    _createWsFrame 8 [1000 / 256, 1000 % 256] false [] =
      [136, 2, 1000 / 256, 1000 % 256] :=
  C5_close_event_sequence 1000 (by decide) (by decide)

/-! Virtual sockets, virtual servers and the server registry. -/

/-- State of a Virtual Socket (`Socket` in src/src/net.js), with an identity
for telling close notifications apart. -/
structure VSock where
  id : Nat
  destroyed : Bool
  connected : Bool
  readyState : String
  deriving DecidableEq, Repr

/-- Observable events of the net layer. -/
inductive NetEvent where
  | unregister (port : Nat)
  | sockError (id : Nat)
  | sockClose (id : Nat) (hadError : Bool)
  | serverClose
  deriving DecidableEq, Repr

/-- `Socket.destroy` (src/src/net.js lines 108-125): a no-op when already
destroyed; otherwise mark destroyed/disconnected/closed, emit the error event
synchronously when an error argument was given, and queue the close event (a
microtask, hence after the error).  Events are returned in observable order. -/
def socketDestroy (s : VSock) (hasError : Bool) : VSock × List NetEvent :=
  if s.destroyed then (s, [])
  else ({ s with destroyed := true, connected := false, readyState := "closed" },
    (if hasError then [.sockError s.id] else []) ++ [.sockClose s.id hasError])

/-- The connection-destroying loop of `net.Server.close`
(src/src/net.js lines 231-235), collecting the queued close events in order. -/
def destroyAll : List VSock → List NetEvent
  | [] => []
  | s :: rest => (socketDestroy s false).2 ++ destroyAll rest

/-- State of a Virtual Server (`Server` in src/src/net.js). -/
structure NetSrv where
  listening : Bool
  addrPort : Option Nat
  connections : List VSock
  deriving DecidableEq, Repr

/-- `net.Server.close` (src/src/net.js lines 227-243): stop listening, destroy
every owned connection, clear the connection set, and queue the server close
event (after all the sockets' queued close events). -/
def netServerClose (sv : NetSrv) : NetSrv × List NetEvent :=
  ({ sv with listening := false, connections := [] },
    destroyAll sv.connections ++ [.serverClose])

/-- `_unregisterServer` / `serverRegistry.delete` (src/src/memfs-entry.js
lines 952-957), on the registry as an association list port → server id. -/
def unregisterServer (reg : List (Nat × Nat)) (port : Nat) : List (Nat × Nat) :=
  reg.filter (fun entry => entry.1 != port)

/-- `http.Server.close` (src/src/memfs-entry.js lines 353-360): read the bound
address; when present, remove the port from the Server Registry synchronously,
then close the underlying net server.  The event list is the observable order:
the registry removal precedes every queued close event. -/
def httpServerClose (reg : List (Nat × Nat)) (sv : NetSrv) :
    List (Nat × Nat) × NetSrv × List NetEvent :=
  match sv.addrPort with
  | some p =>
    (unregisterServer reg p, (netServerClose sv).1, .unregister p :: (netServerClose sv).2)
  | none => (reg, (netServerClose sv).1, (netServerClose sv).2)

theorem destroyAll_map (conns : List VSock) (h : ∀ s ∈ conns, s.destroyed = false) :
    destroyAll conns = conns.map (fun s => NetEvent.sockClose s.id false) := by
  induction conns with
  | nil => rfl
  | cons s rest ih =>
    have hs := h s (by simp)
    rw [destroyAll, List.map_cons, ih (fun x hx => h x (by simp [hx]))]
    simp [socketDestroy, hs]

/-- C6: closing an HTTP server in the Listening state owning N open
connections destroys every owned connection — producing exactly N close
notifications, one per connection, in order — clears the connection set, and
removes the server's port entry from the Server Registry before any of those
close notifications fires: the unregister action is the head of the observable
event sequence, ahead of all N socket-close events and the server-close event. -/
theorem C6_server_close (reg : List (Nat × Nat)) (sv : NetSrv) (p : Nat)
    (_hlisten : sv.listening = true) (haddr : sv.addrPort = some p)
    (hopen : ∀ s ∈ sv.connections, s.destroyed = false) :
    (httpServerClose reg sv).2.2 =
      .unregister p ::
        (sv.connections.map (fun s => NetEvent.sockClose s.id false) ++ [.serverClose]) ∧
    (httpServerClose reg sv).2.1.connections = [] ∧
    (httpServerClose reg sv).2.1.listening = false ∧
    (httpServerClose reg sv).1 = reg.filter (fun entry => entry.1 != p) := by
  have hd := destroyAll_map sv.connections hopen
  refine ⟨?_, ?_, ?_, ?_⟩ <;>
    simp [httpServerClose, haddr, netServerClose, unregisterServer, hd]

theorem C6_server_close_witness :
    (httpServerClose [(80, 1), (81, 2)]
        (⟨true, some 80, [⟨5, false, true, "open"⟩, ⟨6, false, true, "open"⟩]⟩ : NetSrv)).2.2 =
      .unregister 80 :: ([NetEvent.sockClose 5 false, NetEvent.sockClose 6 false] ++
        [.serverClose]) ∧
    (httpServerClose [(80, 1), (81, 2)]
        (⟨true, some 80, [⟨5, false, true, "open"⟩, ⟨6, false, true, "open"⟩]⟩ : NetSrv)).2.1.connections = [] ∧
    (httpServerClose [(80, 1), (81, 2)]
        (⟨true, some 80, [⟨5, false, true, "open"⟩, ⟨6, false, true, "open"⟩]⟩ : NetSrv)).2.1.listening = false ∧
    (httpServerClose [(80, 1), (81, 2)]
        (⟨true, some 80, [⟨5, false, true, "open"⟩, ⟨6, false, true, "open"⟩]⟩ : NetSrv)).1 =
      [(80, 1), (81, 2)].filter (fun entry => entry.1 != 80) :=
  C6_server_close [(80, 1), (81, 2)] _ 80 rfl rfl (by decide)

/-- A sequence of `destroy` calls on one socket, with the concatenated
observable events. -/
def destroySeq : VSock → List Bool → VSock × List NetEvent
  | s, [] => (s, [])
  | s, e :: rest =>
    ((destroySeq (socketDestroy s e).1 rest).1,
      (socketDestroy s e).2 ++ (destroySeq (socketDestroy s e).1 rest).2)

theorem destroySeq_destroyed (s : VSock) (errs : List Bool)
    (h : s.destroyed = true) :
    destroySeq s errs = (s, []) := by
  induction errs with
  | nil => rfl
  | cons e rest ih => simp [destroySeq, socketDestroy, h, ih]

/-- Filter for close notifications. -/
def isCloseEvent : NetEvent → Bool
  | .sockClose _ _ => true
  | _ => false

/-- C7: for every Virtual Socket and every sequence of destroy calls, only the
first call has any effect: the socket transitions to the destroyed/closed
state exactly once, the error notification (when an error was given to the
first call) precedes the close notification, the whole sequence emits exactly
one close notification, and every repeated destroy call leaves the state
unchanged and emits nothing. -/
theorem C7_destroy_idempotent (s : VSock) (e : Bool) (rest : List Bool)
    (h : s.destroyed = false) :
    destroySeq s (e :: rest) =
      ({ s with destroyed := true, connected := false, readyState := "closed" },
        (if e then [.sockError s.id] else []) ++ [.sockClose s.id e]) ∧
    ((if e then [NetEvent.sockError s.id] else []) ++
      [NetEvent.sockClose s.id e]).filter isCloseEvent = [.sockClose s.id e] ∧
    ∀ s' : VSock, s'.destroyed = true → ∀ errs e', destroySeq s' errs = (s', []) ∧
      socketDestroy s' e' = (s', []) := by
  have h1 : socketDestroy s e =
      ({ s with destroyed := true, connected := false, readyState := "closed" },
        (if e then [.sockError s.id] else []) ++ [.sockClose s.id e]) := by
    simp [socketDestroy, h]
  have h2 := destroySeq_destroyed
    { s with destroyed := true, connected := false, readyState := "closed" } rest rfl
  refine ⟨?_, ?_, fun s' hs' errs e' =>
    ⟨destroySeq_destroyed s' errs hs', by simp [socketDestroy, hs']⟩⟩
  · simp [destroySeq, h1, h2]
  · cases e <;> simp [isCloseEvent, List.filter]

theorem C7_destroy_idempotent_witness :
    destroySeq (⟨7, false, true, "open"⟩ : VSock) (true :: [false, true]) =
      ((⟨7, true, false, "closed"⟩ : VSock),
        (if true then [NetEvent.sockError 7] else []) ++ [NetEvent.sockClose 7 true]) ∧
    ((if true then [NetEvent.sockError 7] else []) ++
      [NetEvent.sockClose 7 true]).filter isCloseEvent = [NetEvent.sockClose 7 true] ∧
    ∀ s' : VSock, s'.destroyed = true → ∀ errs e', destroySeq s' errs = (s', []) ∧
      socketDestroy s' e' = (s', []) :=
  C7_destroy_idempotent (⟨7, false, true, "open"⟩ : VSock) true [false, true] rfl

/-! HTTP message layer: `ServerResponse` and `IncomingMessage`. -/

/-- State of an `OutgoingResponse` (`ServerResponse`,
src/src/memfs-entry.js lines 113-127). -/
structure SrvResp where
  statusCode : Nat
  statusMessage : String
  headers : List (String × String)
  body : List Bytes
  headersSent : Bool
  finished : Bool
  deriving DecidableEq, Repr

/-- `ServerResponse.write` (src/src/memfs-entry.js lines 187-199): set
`headersSent` and push the chunk onto the accumulated body, unconditionally —
the `finished` flag is not consulted. -/
def respWrite (resp : SrvResp) (chunk : Bytes) : SrvResp :=
  { resp with headersSent := true, body := resp.body ++ [chunk] }

/-- C8 counterexample: the claim says a `write(chunk)` on a finished response
is a no-op leaving the accumulated body chunks unchanged; on this concrete
finished response, the write appends the chunk to the body. -/
theorem C8_counterexample :
    (respWrite (⟨200, "OK", [], [], true, true⟩ : SrvResp) [1, 2]).body ≠
      (⟨200, "OK", [], [], true, true⟩ : SrvResp).body := by
  decide

/-- C8 amended: a `write(chunk)` after `finished` is not a no-op — it appends
the chunk to the internal body accumulator (so the accumulated body chunks do
change) — while the status code, status message, header map, `headersSent` and
`finished` flags are left unchanged.  (The exchange outcome is unaffected only
because `end()` already resolved it with the body as of end time.) -/
theorem C8_write_after_finished (resp : SrvResp) (chunk : Bytes)
    (hfin : resp.finished = true) :
    (respWrite resp chunk).body = resp.body ++ [chunk] ∧
    (respWrite resp chunk).body ≠ resp.body ∧
    (respWrite resp chunk).finished = true ∧
    (respWrite resp chunk).headersSent = true ∧
    (respWrite resp chunk).statusCode = resp.statusCode ∧
    (respWrite resp chunk).statusMessage = resp.statusMessage ∧
    (respWrite resp chunk).headers = resp.headers := by
  refine ⟨rfl, ?_, hfin, rfl, rfl, rfl, rfl⟩
  intro heq
  have hlen := congrArg List.length heq
  simp [respWrite] at hlen

theorem C8_write_after_finished_witness :
    (respWrite (⟨200, "OK", [], [], true, true⟩ : SrvResp) [1, 2]).body =
      (⟨200, "OK", [], [], true, true⟩ : SrvResp).body ++ [[1, 2]] ∧
    (respWrite (⟨200, "OK", [], [], true, true⟩ : SrvResp) [1, 2]).body ≠
      (⟨200, "OK", [], [], true, true⟩ : SrvResp).body ∧
    (respWrite (⟨200, "OK", [], [], true, true⟩ : SrvResp) [1, 2]).finished = true ∧
    (respWrite (⟨200, "OK", [], [], true, true⟩ : SrvResp) [1, 2]).headersSent = true ∧
    (respWrite (⟨200, "OK", [], [], true, true⟩ : SrvResp) [1, 2]).statusCode =
      (⟨200, "OK", [], [], true, true⟩ : SrvResp).statusCode ∧
    (respWrite (⟨200, "OK", [], [], true, true⟩ : SrvResp) [1, 2]).statusMessage =
      (⟨200, "OK", [], [], true, true⟩ : SrvResp).statusMessage ∧
    (respWrite (⟨200, "OK", [], [], true, true⟩ : SrvResp) [1, 2]).headers =
      (⟨200, "OK", [], [], true, true⟩ : SrvResp).headers :=
  C8_write_after_finished (⟨200, "OK", [], [], true, true⟩ : SrvResp) [1, 2] rfl

/-- JS `String.prototype.toLowerCase` on the ASCII header names involved. -/
def jsToLower (s : String) : String := String.mk (s.toList.map Char.toLower)

/-- State of an `IncomingMessage` (src/src/memfs-entry.js lines 43-108),
restricted to the header-carrying parts the claims are about. -/
structure IncMsg where
  method : String
  url : String
  statusCode : Nat
  headers : List (String × String)
  rawHeaders : List String
  complete : Bool
  deriving DecidableEq, Repr

/-- JS object property assignment `obj[key] = value` on an insertion-ordered
string-keyed object: update in place when the key exists, else append. -/
def assocSet (m : List (String × String)) (k v : String) : List (String × String) :=
  if m.any (fun e => e.1 == k) then
    m.map (fun e => if e.1 == k then (k, v) else e)
  else m ++ [(k, v)]

/-- `IncomingMessage.fromRequest` (src/src/memfs-entry.js lines 88-107):
copies the given header map as-is (`{ ...headers }` — keys keep their original
casing, no lower-casing happens) and pushes each key/value pair onto
`rawHeaders`. -/
def fromRequest (method url : String) (hdrs : List (String × String)) : IncMsg :=
  { method := method, url := url, statusCode := 0,
    headers := hdrs,
    rawHeaders := hdrs.foldl (fun acc kv => acc ++ [kv.1, kv.2]) [],
    complete := true }

/-- `ClientRequest._responseToIncomingMessage` (src/src/memfs-entry.js lines
659-678): for each response header, store the value under the lower-cased key
in the lookup map (`msg.headers[key.toLowerCase()] = value`) and push the
original-cased key and the value onto `rawHeaders`. -/
def responseToIncomingMessage (status : Nat) (hdrs : List (String × String)) : IncMsg :=
  { method := "", url := "", statusCode := status,
    headers := hdrs.foldl (fun m kv => assocSet m (jsToLower kv.1) kv.2) [],
    rawHeaders := hdrs.foldl (fun acc kv => acc ++ [kv.1, kv.2]) [],
    complete := true }

/-- C9 counterexample: the claim says every key of the headers lookup map is
lower-cased for both population paths; but `fromRequest` copies the map keys
verbatim: a synthesized request with header name `X-Test` yields a lookup map
whose key is still `X-Test`, which is not lower-case. -/
theorem C9_counterexample :
    (fromRequest "GET" "/" [("X-Test", "1")]).headers = [("X-Test", "1")] ∧
    jsToLower "X-Test" ≠ "X-Test" := by
  constructor
  · rfl
  · decide

theorem assocSet_keys (m : List (String × String)) (k v : String)
    (P : String → Prop) (hm : ∀ e ∈ m, P e.1) (hk : P k) :
    ∀ e ∈ assocSet m k v, P e.1 := by
  intro e he
  unfold assocSet at he
  by_cases hany : m.any (fun e => e.1 == k)
  · rw [if_pos hany] at he
    obtain ⟨x, hx, hxe⟩ := List.mem_map.1 he
    by_cases hxk : x.1 == k
    · rw [if_pos hxk] at hxe
      rw [← hxe]
      exact hk
    · rw [if_neg hxk] at hxe
      rw [← hxe]
      exact hm x hx
  · rw [if_neg hany] at he
    rcases List.mem_append.1 he with hin | hnew
    · exact hm e hin
    · have : e = (k, v) := by simpa using hnew
      rw [this]
      exact hk

theorem foldl_assocSet_keys (hdrs : List (String × String))
    (P : String → Prop) :
    ∀ init : List (String × String), (∀ e ∈ init, P e.1) →
      (∀ kv ∈ hdrs, P (jsToLower kv.1)) →
      ∀ e ∈ hdrs.foldl (fun m kv => assocSet m (jsToLower kv.1) kv.2) init, P e.1 := by
  induction hdrs with
  | nil => intro init hinit _ e he; exact hinit e he
  | cons kv rest ih =>
    intro init hinit hall e he
    rw [List.foldl_cons] at he
    exact ih (assocSet init (jsToLower kv.1) kv.2)
      (assocSet_keys init (jsToLower kv.1) kv.2 P hinit (hall kv (by simp)))
      (fun x hx => hall x (by simp [hx])) e he

theorem foldl_raw_mono (hdrs : List (String × String)) :
    ∀ (init : List String) (x : String), x ∈ init →
      x ∈ hdrs.foldl (fun acc kv => acc ++ [kv.1, kv.2]) init := by
  induction hdrs with
  | nil => intro init x hx; exact hx
  | cons kv rest ih =>
    intro init x hx
    rw [List.foldl_cons]
    exact ih (init ++ [kv.1, kv.2]) x (List.mem_append_left _ hx)

theorem mem_raw_of_mem (hdrs : List (String × String)) :
    ∀ (init : List String) (kv : String × String), kv ∈ hdrs →
      kv.1 ∈ hdrs.foldl (fun acc kv => acc ++ [kv.1, kv.2]) init := by
  induction hdrs with
  | nil => intro init kv hkv; exact absurd hkv (List.not_mem_nil kv)
  | cons a rest ih =>
    intro init kv hkv
    rw [List.foldl_cons]
    rcases List.mem_cons.1 hkv with heq | hmem
    · rw [heq]
      exact foldl_raw_mono rest (init ++ [a.1, a.2]) a.1
        (List.mem_append_right _ (by simp))
    · exact ih (init ++ [a.1, a.2]) kv hmem

/-- C9 amended: only the client-side path lower-cases the lookup keys.  For
`_responseToIncomingMessage`, every key of the headers lookup map is the
lower-casing of an original header name; for `IncomingMessage.fromRequest`,
the headers lookup map is the given header map copied verbatim, keys keeping
their original casing (so they are lower-cased only if they arrived that way).
In both paths every original header name appears with its original casing in
the `rawHeaders` sequence. -/
theorem C9_header_casing (hdrs : List (String × String)) (status : Nat)
    (method url : String) :
    (∀ e ∈ (responseToIncomingMessage status hdrs).headers,
      ∃ kv ∈ hdrs, e.1 = jsToLower kv.1) ∧
    (fromRequest method url hdrs).headers = hdrs ∧
    (∀ kv ∈ hdrs, kv.1 ∈ (responseToIncomingMessage status hdrs).rawHeaders) ∧
    (∀ kv ∈ hdrs, kv.1 ∈ (fromRequest method url hdrs).rawHeaders) := by
  refine ⟨?_, rfl, ?_, ?_⟩
  · intro e he
    exact foldl_assocSet_keys hdrs (fun k => ∃ kv ∈ hdrs, k = jsToLower kv.1) []
      (by simp) (fun kv hkv => ⟨kv, hkv, rfl⟩) e he
  · intro kv hkv
    exact mem_raw_of_mem hdrs [] kv hkv
  · intro kv hkv
    exact mem_raw_of_mem hdrs [] kv hkv

theorem C9_header_casing_witness :
    ∃ kv ∈ [(("X-A" : String), ("1" : String))], ("x-a" : String) = jsToLower kv.1 :=
  (C9_header_casing [("X-A", "1")] 200 "GET" "/").1 ("x-a", "1") (by decide)

/-! WebSocket handshake accept value.  The hash itself comes from the bundled
crypto shim (`createHash` from crypto-browserify), whose source is not under
src/, so SHA-1 and base64 are modelled from the spec as the standard
algorithms; the accept-value formula itself is from
src/src/memfs-entry.js lines 707-714. -/

/-- Byte sequence of an ASCII string (the UTF-8 bytes the hash consumes;
handshake keys and the GUID are ASCII). -/
def strBytes (s : String) : Bytes := s.toList.map Char.toNat

/-- Rotate a 32-bit word left by `n`. -/
def rotl32 (n x : Nat) : Nat := ((x <<< n) ||| (x >>> (32 - n))) % 4294967296

/-- Modelled from the spec: the SHA-1 round constants (RFC 3174). -/
def sha1K (t : Nat) : Nat :=
  if t < 20 then 1518500249
  else if t < 40 then 1859775393
  else if t < 60 then 2400959708
  else 3395469782

/-- Modelled from the spec: the SHA-1 round functions (RFC 3174); `~b` is
`b ^^^ 0xFFFFFFFF` on 32-bit words. -/
def sha1F (t b c d : Nat) : Nat :=
  if t < 20 then (b &&& c) ||| ((b ^^^ 4294967295) &&& d)
  else if t < 40 then b ^^^ c ^^^ d
  else if t < 60 then (b &&& c) ||| (b &&& d) ||| (c &&& d)
  else b ^^^ c ^^^ d

/-- Modelled from the spec: SHA-1 message padding — append 0x80, zero-pad to
56 mod 64, then the 64-bit big-endian bit length. -/
def sha1Pad (msg : Bytes) : Bytes :=
  msg ++ [128] ++ List.replicate ((64 - ((msg.length + 9) % 64)) % 64) 0 ++
    [((8 * msg.length) >>> 56) % 256, ((8 * msg.length) >>> 48) % 256,
     ((8 * msg.length) >>> 40) % 256, ((8 * msg.length) >>> 32) % 256,
     ((8 * msg.length) >>> 24) % 256, ((8 * msg.length) >>> 16) % 256,
     ((8 * msg.length) >>> 8) % 256, (8 * msg.length) % 256]

/-- Big-endian 32-bit words of a block. -/
def toWords : Bytes → List Nat
  | a :: b :: c :: d :: rest => (((a * 256 + b) * 256 + c) * 256 + d) :: toWords rest
  | _ => []

/-- Modelled from the spec: the SHA-1 message schedule — extend the 16 block
words by `n` further words `W[t] = rotl1 (W[t-3] ^ W[t-8] ^ W[t-14] ^ W[t-16])`. -/
def sha1Extend : List Nat → Nat → List Nat
  | w, 0 => w
  | w, n + 1 =>
    sha1Extend (w ++ [rotl32 1 (w.getD (w.length - 3) 0 ^^^ w.getD (w.length - 8) 0 ^^^
      w.getD (w.length - 14) 0 ^^^ w.getD (w.length - 16) 0)]) n

/-- The five 32-bit SHA-1 chaining variables. -/
structure Sha1State where
  a : Nat
  b : Nat
  c : Nat
  d : Nat
  e : Nat
  deriving DecidableEq, Repr

/-- Modelled from the spec: the SHA-1 initial state. -/
def sha1Start : Sha1State :=
  ⟨1732584193, 4023233417, 2562383102, 271733878, 3285377520⟩

/-- Modelled from the spec: one SHA-1 block compression — 80 rounds over the
extended schedule, then add the result into the chaining variables mod 2^32. -/
def sha1Compress (st : Sha1State) (block : Bytes) : Sha1State :=
  let fold := ((List.range 80).zip (sha1Extend (toWords block) 64)).foldl
    (fun q tw =>
      (⟨(rotl32 5 q.a + sha1F tw.1 q.b q.c q.d + q.e + sha1K tw.1 + tw.2) % 4294967296,
        q.a, rotl32 30 q.b, q.c, q.d⟩ : Sha1State))
    st
  ⟨(st.a + fold.a) % 4294967296, (st.b + fold.b) % 4294967296,
   (st.c + fold.c) % 4294967296, (st.d + fold.d) % 4294967296,
   (st.e + fold.e) % 4294967296⟩

/-- Big-endian bytes of a 32-bit word. -/
def be32 (x : Nat) : Bytes :=
  [(x >>> 24) % 256, (x >>> 16) % 256, (x >>> 8) % 256, x % 256]

/-- Modelled from the spec: SHA-1 of a byte sequence — pad, compress each
64-byte block in order, output the 20 digest bytes big-endian. -/
def sha1 (msg : Bytes) : Bytes :=
  let p := sha1Pad msg
  let final := (List.range (p.length / 64)).foldl
    (fun st i => sha1Compress st ((p.drop (64 * i)).take 64)) sha1Start
  be32 final.a ++ be32 final.b ++ be32 final.c ++ be32 final.d ++ be32 final.e

/-- The base64 alphabet. -/
def b64Alphabet : List Char :=
  "ABCDEFGHIJKLMNOPQRSTUVWXYZabcdefghijklmnopqrstuvwxyz0123456789+/".toList

/-- Character for a 6-bit group. -/
def b64Char (n : Nat) : Char := b64Alphabet.getD n 'A'

/-- Modelled from the spec: standard base64 encoding with `=` padding. -/
def b64Encode : Bytes → String
  | [] => ""
  | [a] => String.mk [b64Char (a >>> 2), b64Char ((a &&& 3) <<< 4), '=', '=']
  | [a, b] => String.mk [b64Char (a >>> 2), b64Char (((a &&& 3) <<< 4) ||| (b >>> 4)),
      b64Char ((b &&& 15) <<< 2), '=']
  | a :: b :: c :: rest =>
    String.mk [b64Char (a >>> 2), b64Char (((a &&& 3) <<< 4) ||| (b >>> 4)),
      b64Char (((b &&& 15) <<< 2) ||| (c >>> 6)), b64Char (c &&& 63)] ++ b64Encode rest

/-- The `Sec-WebSocket-Accept` computation of `_handleWebSocketUpgrade`
(src/src/memfs-entry.js lines 707-714):
`createHash("sha1").update(wsKey + GUID).digest("base64")` with the GUID
`258EAFA5-E914-47DA-95CA-C5AB0DC85B11`. -/
def computeAcceptValue (key : String) : String :=
  b64Encode (sha1 (strBytes (key ++ "258EAFA5-E914-47DA-95CA-C5AB0DC85B11")))

set_option maxRecDepth 100000 in
/-- C3: for every handshake key string, the computed `Sec-WebSocket-Accept`
value equals base64(SHA-1(key ++ GUID)) with the GUID
`258EAFA5-E914-47DA-95CA-C5AB0DC85B11`; in particular, for the key
`dGhlIHNhbXBsZSBub25jZQ==` it equals the RFC6455 worked example
`s3pPLMBiTxaQ9kYGzzhZRbK+xOo=`. -/
theorem C3_accept_value :
    (∀ key : String, computeAcceptValue key =
      b64Encode (sha1 (strBytes (key ++ "258EAFA5-E914-47DA-95CA-C5AB0DC85B11")))) ∧
    computeAcceptValue "dGhlIHNhbXBsZSBub25jZQ==" = "s3pPLMBiTxaQ9kYGzzhZRbK+xOo=" :=
  ⟨fun _ => rfl, by decide⟩

end VFS
